import Mathlib

/-!
Shallow embedding of `src/backend/symbols.ts` (class `SymbolTable`):
section/symbol data model, symbol-line decoding, the two relocation entry
points, the relocated-section snapshot query and the lookup queries.

Numbers are modelled as `Int`: the TypeScript code computes with ordinary
JS numbers (`parseInt` results, sums, differences) and performs no
wrap-around arithmetic; a symbol's section-relative `address` can be
negative (`rawAddress - lma`), hence `Int` rather than `Nat`.
-/

/-- Modelled from the spec: `SymbolType` enum imported from `../symbols`
(that file is not part of the sources); members per §3 and the
`TYPE_MAP` keys: Function, File, Object, Normal. -/
inductive SymbolType where
  | Function
  | File
  | Object
  | Normal
deriving DecidableEq, Repr

/-- Modelled from the spec: `SymbolScope` enum imported from `../symbols`
(not in the sources); members per §3 and the `SCOPE_MAP` keys:
Local, Global, Neither, Both. -/
inductive SymbolScope where
  | Local
  | Global
  | Neither
  | Both
deriving DecidableEq, Repr

/-- Modelled from the spec: the `Section` record of `../symbols` (not in
the sources); fields exactly as constructed by `getSections` and read by
the relocation code: name, address (current runtime base, mutable),
size, vma, lma, fileOffset, align, flags. -/
structure Section where
  name : String
  address : Int
  size : Int
  vma : Int
  lma : Int
  fileOffset : Int
  align : Int
  flags : List String
deriving DecidableEq, Repr

/-- Modelled from the spec: the `SymbolInformation` record of
`../symbols` (not in the sources); fields exactly as constructed by
`getSymbols`.  The TS field `lines` is always `null` in this unit and
carries no data, so it is omitted.  `file` is `string | null`, modelled
as `Option String`. -/
structure SymbolInformation where
  address : Int
  base : Int
  type : SymbolType
  scope : SymbolScope
  section_ : String
  size : Int
  name : String
  file : Option String
  hidden : Bool
deriving DecidableEq, Repr

/-- `TYPE_MAP` of symbols.ts.  The symbol regex constrains the flag
character (capture group 8) to the class `[FfO ]`, so the final branch
is reached exactly for `' '`, matching the TS record
`{F: Function, f: File, O: Object, ' ': Normal}`. -/
def TYPE_MAP (c : Char) : SymbolType :=
  if c = 'F' then SymbolType.Function
  else if c = 'f' then SymbolType.File
  else if c = 'O' then SymbolType.Object
  else SymbolType.Normal

/-- `SCOPE_MAP` of symbols.ts.  The regex constrains the scope character
(capture group 2) to `[lg !]`, so the final branch is reached exactly
for `'!'`, matching `{l: Local, g: Global, ' ': Neither, '!': Both}`. -/
def SCOPE_MAP (c : Char) : SymbolScope :=
  if c = 'l' then SymbolScope.Local
  else if c = 'g' then SymbolScope.Global
  else if c = ' ' then SymbolScope.Neither
  else SymbolScope.Both

/-- One line of objdump `--syms` output that matched `SYMBOL_REGEX`,
represented by the capture groups the decoder actually reads.
`m1` and `m10` hold `parseInt(match[i], 16)` of the two hex-digit
groups (groups 1 and 10); `m2` is the scope character (`[lg !]`),
`m7` the debug/dynamic character (`[dD ]`), `m8` the type character
(`[FfO ]`), `m9` the section-name token (`[^\s]+`), `m11` the greedy
trailing name field (`.*`).  Groups 3-6 (weak/constructor/warning/
indirect flags) are captured by the regex but never read by the code,
so they are not represented. -/
structure SymbolMatch where
  m1 : Int
  m2 : Char
  m7 : Char
  m8 : Char
  m9 : String
  m10 : Int
  m11 : String
deriving DecidableEq, Repr

/-- JS `String.prototype.trim`: strip leading and trailing whitespace.
Defined over the character list so that it is kernel-computable
(`String.trim` of core Lean is well-founded-recursive and does not
reduce under `decide`). -/
def jsTrim (s : String) : String :=
  String.mk (((s.toList.dropWhile Char.isWhitespace).reverse.dropWhile
    Char.isWhitespace).reverse)

/-- JS `String.prototype.startsWith`, kernel-computable. -/
def jsStartsWith (s p : String) : Bool :=
  p.toList.isPrefixOf s.toList

/-- JS `String.prototype.substring(n)` (all inputs here are ASCII, so
code-unit and character counts coincide), kernel-computable. -/
def jsSubstring (s : String) (n : Nat) : String :=
  String.mk (s.toList.drop n)

/-- The body of the `for (const line of lines)` loop of
`SymbolTable.getSymbols`, for one matched line: given the sections and
the running `currentFile`, produce the updated `currentFile` and the
pushed `SymbolInformation`, or the `Section ... not found` error. -/
def getSymbolsStep (sections : List Section) (currentFile : Option String)
    (m : SymbolMatch) : Except String (Option String × SymbolInformation) :=
  let currentFile := if m.m7 = 'd' ∧ m.m8 = 'f' then some (jsTrim m.m11) else currentFile
  let type := TYPE_MAP m.m8
  let scope := SCOPE_MAP m.m2
  let name0 := jsTrim m.m11
  let name := if jsStartsWith name0 ".hidden" then jsTrim (jsSubstring name0 7) else name0
  let hidden := jsStartsWith name0 ".hidden"
  -- fix for LTO; `!currentFile` in JS is true for null and for ""
  let scope := if scope = SymbolScope.Local ∧
      (currentFile = none ∨ currentFile = some "" ∨ currentFile = some "<artificial>")
    then SymbolScope.Global else scope
  let sectionName := jsTrim m.m9
  let sec := sections.find? (fun s => s.name == sectionName)
  if sectionName ≠ "*ABS*" ∧ sec = none then
    Except.error ("Section " ++ sectionName ++ " not found. Symbol: " ++ name)
  else
    Except.ok (currentFile,
      { address := m.m1 - (match sec with | some s => s.lma | none => 0)
        base := 0
        type := type
        scope := scope
        section_ := sectionName
        size := m.m10
        name := name
        file := if scope = SymbolScope.Local then currentFile else none
        hidden := hidden })

/-- The scan of `SymbolTable.getSymbols` over all matched lines,
threading `currentFile` (initially null) and accumulating the pushed
symbols in order. -/
def getSymbolsLoop (sections : List Section) (currentFile : Option String) :
    List SymbolMatch → Except String (List SymbolInformation)
  | [] => Except.ok []
  | m :: rest =>
    match getSymbolsStep sections currentFile m with
    | Except.error e => Except.error e
    | Except.ok (cf, sym) =>
      match getSymbolsLoop sections cf rest with
      | Except.error e => Except.error e
      | Except.ok syms => Except.ok (sym :: syms)

/-- `SymbolTable.getSymbols`, applied to the lines of the symbol report
that matched `SYMBOL_REGEX` (non-matching lines are skipped by the
source and are therefore not represented).  Fails when sections were
not parsed first, exactly as the source's initial guard. -/
def getSymbols (sections : List Section) (ms : List SymbolMatch) :
    Except String (List SymbolInformation) :=
  if sections.length = 0 then
    Except.error "call getSections() before getSymbols()!"
  else
    getSymbolsLoop sections none ms

/-- The mutable state of a `SymbolTable`: its `sections` and `symbols`
arrays. -/
structure SymbolTable where
  sections : List Section
  symbols : List SymbolInformation
deriving DecidableEq, Repr

/-- One step of the first pass of `SymbolTable.relocate`:
`this.sections.find((s) => s.name === relocatedSection.name)` followed by
`section.address = relocatedSection.address` mutates the first stored
section of that name (later duplicates untouched); a miss is a no-op. -/
def updateFirstSection (nm : String) (addr : Int) : List Section → List Section
  | [] => []
  | s :: rest =>
    if s.name == nm then { s with address := addr } :: rest
    else s :: updateFirstSection nm addr rest

/-- The first pass of `SymbolTable.relocate`:
`relocatedSections.forEach(...)` applies `updateFirstSection` for each
input pair in order. -/
def applyRelocations (relocatedSections : List Section) (sections : List Section) :
    List Section :=
  relocatedSections.foldl (fun acc r => updateFirstSection r.name r.address acc) sections

/-- The symbol-base pass shared by `relocate` and `relocateWithOffset`:
for every symbol, find its section by name and copy that section's
current `address` into `base`; symbols whose section is not found
(notably `*ABS*`) are left unchanged. -/
def updateSymbolBases (sections : List Section)
    (symbols : List SymbolInformation) : List SymbolInformation :=
  symbols.map fun sym =>
    match sections.find? (fun s => s.name == sym.section_) with
    | some sec => { sym with base := sec.address }
    | none => sym

/-- `SymbolTable.relocate(relocatedSections)`: update each named
section's address, then recompute every symbol's base.  (The source's
`console.log` calls are pure output and not modelled.) -/
def SymbolTable.relocate (st : SymbolTable) (relocatedSections : List Section) :
    SymbolTable :=
  let sections := applyRelocations relocatedSections st.sections
  { sections := sections, symbols := updateSymbolBases sections st.symbols }

/-- Whether a section participates in offset relocation and in the
relocated-section snapshot: flagged "ALLOC" and of non-zero size.
(The source's `section.flags &&` truthiness guard is vacuous here since
`flags` is always an array.) -/
def isAllocSection (s : Section) : Bool :=
  (s.flags.find? (fun v => v == "ALLOC")).isSome && decide (s.size > 0)

/-- `SymbolTable.relocateWithOffset(loadOffset)`: every ALLOC section of
non-zero size gets `address = vma + loadOffset`; others untouched; then
recompute every symbol's base. -/
def SymbolTable.relocateWithOffset (st : SymbolTable) (loadOffset : Int) :
    SymbolTable :=
  let sections := st.sections.map fun s =>
    if isAllocSection s then { s with address := s.vma + loadOffset } else s
  { sections := sections, symbols := updateSymbolBases sections st.symbols }

/-- The loop of `SymbolTable.getRelocatedSections`, threading the
`count` index into the supplied bases: qualifying sections take
`relocatedBases[count++]`, others fall back to `vma`.  Returns the built
list and the final count.  An out-of-range index yields `undefined` in
the source; it is modelled by a default of 0, which is never observable
because the function then fails the count check (proved below). -/
def relocSnapshotGo (relocatedBases : List Int) :
    List Section → Nat → List Section × Nat
  | [], count => ([], count)
  | s :: rest, count =>
    if isAllocSection s then
      let r := relocSnapshotGo relocatedBases rest (count + 1)
      ({ s with address := relocatedBases.getD count 0 } :: r.1, r.2)
    else
      let r := relocSnapshotGo relocatedBases rest count
      ({ s with address := s.vma } :: r.1, r.2)

/-- `SymbolTable.getRelocatedSections(relocatedBases)`: build the
snapshot, then throw `number of sections mismatch` unless exactly all
supplied bases were consumed. -/
def SymbolTable.getRelocatedSections (st : SymbolTable) (relocatedBases : List Int) :
    Except String (List Section) :=
  let r := relocSnapshotGo relocatedBases st.sections 0
  if r.2 ≠ relocatedBases.length then
    Except.error "SymbolTable.getLocatedSections: number of sections mismatch"
  else
    Except.ok r.1

/-- `SymbolTable.getRelocatedSections` as a state transformer: the
method body reads `this.sections` and builds fresh records by object
spread; it writes neither `this.sections` nor `this.symbols`, so the
table component passes through. -/
def SymbolTable.getRelocatedSectionsRun (st : SymbolTable)
    (relocatedBases : List Int) : Except String (List Section) × SymbolTable :=
  (st.getRelocatedSections relocatedBases, st)

/-- The `symAddress` computed inside `getFunctionAtAddress`:
`s.address`, plus `s.base` when `relocated`. -/
def symAddress (s : SymbolInformation) (relocated : Bool) : Int :=
  if relocated then s.address + s.base else s.address

/-- The filter predicate of `SymbolTable.getFunctionAtAddress`. -/
def functionAtAddressPred (address : Int) (relocated : Bool)
    (s : SymbolInformation) : Bool :=
  decide (s.type = SymbolType.Function) &&
  decide (symAddress s relocated ≤ address) &&
  decide (symAddress s relocated + s.size > address)

/-- `SymbolTable.getFunctionAtAddress(address, relocated)`: filter the
function symbols containing the address; return the first match
(`matches[0]`) or null. -/
def SymbolTable.getFunctionAtAddress (st : SymbolTable) (address : Int)
    (relocated : Bool) : Option SymbolInformation :=
  (st.symbols.filter (functionAtAddressPred address relocated)).head?

/-- The strict equality `s.file === file` of `getFunctionByName`:
`s.file` is `string | null`, the parameter is `string | undefined`;
`===` holds only when both are the same string (`null === undefined`
is false). -/
def tsFileEq (a b : Option String) : Bool :=
  match a, b with
  | some x, some y => x == y
  | _, _ => false

/-- `SymbolTable.getFunctionByName(name, file)`: first the Local-scope
function of that name and file, else any non-Local-scope function of
that name, else null. -/
def SymbolTable.getFunctionByName (st : SymbolTable) (name : String)
    (file : Option String) : Option SymbolInformation :=
  let localMatches := st.symbols.filter fun s =>
    decide (s.type = SymbolType.Function) && decide (s.scope = SymbolScope.Local) &&
    s.name == name && tsFileEq s.file file
  match localMatches.head? with
  | some s => some s
  | none =>
    let fallbackMatches := st.symbols.filter fun s =>
      decide (s.type = SymbolType.Function) && decide (s.scope ≠ SymbolScope.Local) &&
      s.name == name
    fallbackMatches.head?

deriving instance DecidableEq for Except

/-- The single section of the end-to-end scenario of §8:
`.text`, vma = lma = 0x1000, size 0x100, flags ["ALLOC"]. -/
def textSection : Section :=
  { name := ".text", address := 0, size := 0x100, vma := 0x1000, lma := 0x1000,
    fileOffset := 0, align := 1, flags := ["ALLOC"] }

/-- The decoded symbol line of the scenario: raw address 0x1050, scope
Global (`g`), type Function (`F`), section `.text`, size 0x20, name
`foo`. -/
def fooMatch : SymbolMatch :=
  { m1 := 0x1050, m2 := 'g', m7 := ' ', m8 := 'F', m9 := ".text",
    m10 := 0x20, m11 := "foo" }

/-- The Symbol the scenario expects `getSymbols` to decode. -/
def fooSym : SymbolInformation :=
  { address := 0x50, base := 0, type := SymbolType.Function,
    scope := SymbolScope.Global, section_ := ".text", size := 0x20,
    name := "foo", file := none, hidden := false }

/-- Number of sections that qualify for offset relocation and for the
relocated-section snapshot: flagged "ALLOC" with non-zero size. -/
def allocCount (l : List Section) : Nat :=
  (l.filter isAllocSection).length

/-- The address assigned by the last entry of `rs` naming `nm`, if any:
`relocate` applies its input pairs in order, so the last write to a
name wins. -/
def lastRelocAddr (nm : String) : List Section → Option Int
  | [] => none
  | r :: rs =>
    match lastRelocAddr nm rs with
    | some a => some a
    | none => if r.name == nm then some r.address else none

/-- The net effect of the first pass of `relocate` on one section:
take the last supplied address for its name, if any. -/
def applyRelocTo (rs : List Section) (s : Section) : Section :=
  match lastRelocAddr s.name rs with
  | some a => { s with address := a }
  | none => s

/-- Functional characterization of `applyRelocations`, used in proofs:
every write for a name hits only the first section of that name, so the
entries of an already-seen name are dropped when descending past it. -/
def relocFun (rs : List Section) : List Section → List Section
  | [] => []
  | s :: t => applyRelocTo rs s :: relocFun (rs.filter (fun r => !(r.name == s.name))) t

/-- Modelled from the spec: the §4.3 companion query in the spec's own
words — one supplied address per runtime-allocatable, non-zero-size
section, in table order; those sections take the supplied addresses,
all others fall back to their static `vma`; a count mismatch fails.
Reference side of the refinement theorem for `getRelocatedSections`. -/
def snapshotSpec : List Section → List Int → Option (List Section)
  | [], [] => some []
  | [], _ :: _ => none
  | s :: rest, bases =>
    if isAllocSection s then
      match bases with
      | [] => none
      | b :: bs => (snapshotSpec rest bs).map (fun t => { s with address := b } :: t)
    else
      (snapshotSpec rest bases).map (fun t => { s with address := s.vma } :: t)

/-- A symbol line with Local scope flag (`l`) scanned while no
compile-unit marker has been seen: raw address 0x1010 in `.text`,
type Function, size 4, name `bar`. -/
def ltoMatch : SymbolMatch :=
  { m1 := 0x1010, m2 := 'l', m7 := ' ', m8 := 'F', m9 := ".text",
    m10 := 4, m11 := "bar" }

/-- The Symbol decoded from `ltoMatch`: scope upgraded to Global by the
LTO fix, file null. -/
def ltoSym : SymbolInformation :=
  { address := 0x10, base := 0, type := SymbolType.Function,
    scope := SymbolScope.Global, section_ := ".text", size := 4,
    name := "bar", file := none, hidden := false }

/-- A symbol line naming a section (`.data`) absent from the scenario's
section table. -/
def badMatch : SymbolMatch :=
  { m1 := 0, m2 := 'g', m7 := ' ', m8 := 'F', m9 := ".data",
    m10 := 0, m11 := "x" }

/-- Scenario symbol: a function `helper` Local to file `a.c`. -/
def helperLocal : SymbolInformation :=
  { address := 0, base := 0, type := SymbolType.Function,
    scope := SymbolScope.Local, section_ := ".text", size := 4,
    name := "helper", file := some "a.c", hidden := false }

/-- Scenario symbol: a Global function also named `helper`. -/
def helperGlobal : SymbolInformation :=
  { address := 8, base := 0, type := SymbolType.Function,
    scope := SymbolScope.Global, section_ := ".text", size := 4,
    name := "helper", file := none, hidden := false }

/-- Scenario table holding the two `helper` functions. -/
def helperTable : SymbolTable :=
  { sections := [textSection], symbols := [helperLocal, helperGlobal] }

/-- Scenario symbol: a Function-type symbol of size 0. -/
def zeroSizeFn : SymbolInformation :=
  { address := 0x50, base := 0, type := SymbolType.Function,
    scope := SymbolScope.Global, section_ := ".text", size := 0,
    name := "zf", file := none, hidden := false }

/-- The display name computed by the decoder for a matched line: the
trimmed trailing field, with the `.hidden` marker stripped.  This is
the name `getSymbols` interpolates into its unknown-section error. -/
def decodedName (m : SymbolMatch) : String :=
  if jsStartsWith (jsTrim m.m11) ".hidden" then jsTrim (jsSubstring (jsTrim m.m11) 7)
  else jsTrim m.m11

/-- The `Section ... not found. Symbol: ...` error text thrown by
`getSymbols` for a line whose section is neither `*ABS*` nor in the
table: it names the offending section and the offending symbol. -/
def unknownSectionMessage (m : SymbolMatch) : String :=
  "Section " ++ jsTrim m.m9 ++ " not found. Symbol: " ++ decodedName m

theorem head?_filter_eq_find? {α} (p : α → Bool) (l : List α) :
    (l.filter p).head? = l.find? p := by
  induction l with
  | nil => rfl
  | cons a t _ =>
    simp only [List.filter_cons, List.find?_cons]
    cases h : p a
    · simp
    · simp


theorem updateSymbolBases_getElem? (secs : List Section)
    (syms : List SymbolInformation) (i : Nat) :
    (updateSymbolBases secs syms)[i]? = (syms[i]?).map (fun sym =>
      match secs.find? (fun s => s.name == sym.section_) with
      | some sec => { sym with base := sec.address }
      | none => sym) := by
  unfold updateSymbolBases
  exact List.getElem?_map ..

theorem base_eq_of_mem_updateSymbolBases (secs : List Section)
    (syms : List SymbolInformation) (sym' : SymbolInformation)
    (h : sym' ∈ updateSymbolBases secs syms) (sec : Section)
    (hf : secs.find? (fun s => s.name == sym'.section_) = some sec) :
    sym'.base = sec.address := by
  unfold updateSymbolBases at h
  rcases List.mem_map.1 h with ⟨sym, hmem, heq⟩
  cases hc : secs.find? (fun s => s.name == sym.section_) with
  | none =>
    rw [hc] at heq
    subst heq
    rw [hf] at hc
    exact absurd hc (by simp)
  | some sec0 =>
    rw [hc] at heq
    subst heq
    simp only at hf
    rw [hf] at hc
    cases hc
    rfl

/-- Claim C1: with the single ALLOC section `.text` (vma = lma = 0x1000,
size 0x100) and one decoded line (raw address 0x1050, scope Global,
type Function, section `.text`, size 0x20, name `foo`), the decoded
Symbol is `fooSym` with `address = 0x50` and `base = 0`; after
`relocateWithOffset(0x8000)` the `.text` section's address is 0x9000
and foo's base is 0x9000, and `getFunctionAtAddress(0x9050, true)`
returns foo. -/
theorem end_to_end_scenario :
    getSymbols [textSection] [fooMatch] = Except.ok [fooSym] ∧
    fooSym.address = 0x50 ∧ fooSym.base = 0 ∧
    (SymbolTable.relocateWithOffset ⟨[textSection], [fooSym]⟩ 0x8000).sections =
      [{ textSection with address := 0x9000 }] ∧
    (SymbolTable.relocateWithOffset ⟨[textSection], [fooSym]⟩ 0x8000).symbols =
      [{ fooSym with base := 0x9000 }] ∧
    SymbolTable.getFunctionAtAddress
      (SymbolTable.relocateWithOffset ⟨[textSection], [fooSym]⟩ 0x8000) 0x9050 true =
      some { fooSym with base := 0x9000 } := by
  decide

/-- Claim C2: immediately after `relocate` or `relocateWithOffset`,
every symbol whose section is not `*ABS*` and whose owning Section is
found in the table has `base` equal to that Section's current
`address`, and its effective relocated address is `address + base`. -/
theorem base_consistent_after_relocation (st : SymbolTable)
    (rs : List Section) (off : Int) :
    (∀ sym ∈ (st.relocate rs).symbols, sym.section_ ≠ "*ABS*" →
      ∀ sec, (st.relocate rs).sections.find? (fun s => s.name == sym.section_) = some sec →
        sym.base = sec.address ∧ symAddress sym true = sym.address + sym.base) ∧
    (∀ sym ∈ (st.relocateWithOffset off).symbols, sym.section_ ≠ "*ABS*" →
      ∀ sec, (st.relocateWithOffset off).sections.find? (fun s => s.name == sym.section_) = some sec →
        sym.base = sec.address ∧ symAddress sym true = sym.address + sym.base) := by
  constructor
  · intro sym hmem _ sec hf
    exact ⟨base_eq_of_mem_updateSymbolBases _ _ _ hmem _ hf, rfl⟩
  · intro sym hmem _ sec hf
    exact ⟨base_eq_of_mem_updateSymbolBases _ _ _ hmem _ hf, rfl⟩

theorem base_consistent_after_relocation_witness :
    ({ fooSym with base := (5:Int) }).base = ({ textSection with address := (5:Int) }).address ∧
    symAddress { fooSym with base := (5:Int) } true =
      ({ fooSym with base := (5:Int) }).address + ({ fooSym with base := (5:Int) }).base :=
  (base_consistent_after_relocation ⟨[textSection], [fooSym]⟩
      [{ textSection with address := 5 }] 0).1
    { fooSym with base := 5 } (by decide) (by decide)
    { textSection with address := 5 } (by decide)

/-- Claim C6: a decoded line whose scope flag maps to Local, scanned at
a point where the running compile-unit marker (after this line's own
update) is unset or `<artificial>`, yields a symbol of Global scope
with a null `file`. -/
theorem lto_local_scope_upgraded (sections : List Section) (cf : Option String)
    (m : SymbolMatch) (cf' : Option String) (sym : SymbolInformation)
    (hok : getSymbolsStep sections cf m = Except.ok (cf', sym))
    (hloc : SCOPE_MAP m.m2 = SymbolScope.Local)
    (hcf : cf' = none ∨ cf' = some "<artificial>") :
    sym.scope = SymbolScope.Global ∧ sym.file = none := by
  simp only [getSymbolsStep] at hok
  split at hok
  · exact absurd hok (by simp)
  · rw [Except.ok.injEq, Prod.mk.injEq] at hok
    obtain ⟨hcf2, hsym⟩ := hok
    subst hcf2
    subst hsym
    have hcond : SCOPE_MAP m.m2 = SymbolScope.Local ∧
        ((if m.m7 = 'd' ∧ m.m8 = 'f' then some (jsTrim m.m11) else cf) = none ∨
         (if m.m7 = 'd' ∧ m.m8 = 'f' then some (jsTrim m.m11) else cf) = some "" ∨
         (if m.m7 = 'd' ∧ m.m8 = 'f' then some (jsTrim m.m11) else cf) = some "<artificial>") := by
      refine ⟨hloc, ?_⟩
      rcases hcf with h | h
      · exact Or.inl h
      · exact Or.inr (Or.inr h)
    simp [if_pos hcond]

theorem lto_local_scope_upgraded_witness :
    ltoSym.scope = SymbolScope.Global ∧ ltoSym.file = none :=
  lto_local_scope_upgraded [textSection] none ltoMatch none ltoSym
    (by decide) (by decide) (Or.inl rfl)

/-- Claim C9: `getFunctionAtAddress` never returns a symbol of size 0
(the containment test needs `symAddress ≤ address < symAddress + size`),
and a table whose Function symbols all have size 0 always yields
not-found. -/
theorem getFunctionAtAddress_size_nonzero (st : SymbolTable) (address : Int)
    (relocated : Bool) :
    (∀ sym, st.getFunctionAtAddress address relocated = some sym → sym.size ≠ 0) ∧
    ((∀ s ∈ st.symbols, s.type = SymbolType.Function → s.size = 0) →
      st.getFunctionAtAddress address relocated = none) := by
  constructor
  · intro sym h
    unfold SymbolTable.getFunctionAtAddress at h
    rw [head?_filter_eq_find?] at h
    have hp := List.find?_some h
    simp only [functionAtAddressPred, Bool.and_eq_true, decide_eq_true_eq] at hp
    omega
  · intro hall
    unfold SymbolTable.getFunctionAtAddress
    have hnil : st.symbols.filter (functionAtAddressPred address relocated) = [] := by
      rw [List.filter_eq_nil_iff]
      intro s hs
      simp only [functionAtAddressPred, Bool.and_eq_true, decide_eq_true_eq, not_and]
      intro hab
      have := hall s hs hab.1
      omega
    rw [hnil]
    rfl

theorem getFunctionAtAddress_size_nonzero_witness :
    SymbolTable.getFunctionAtAddress ⟨[textSection], [zeroSizeFn]⟩ 0x50 false = none :=
  (getFunctionAtAddress_size_nonzero ⟨[textSection], [zeroSizeFn]⟩ 0x50 false).2 (by decide)

@[simp]
theorem setAddress_name (s : Section) (a : Int) : ({ s with address := a }).name = s.name := rfl

@[simp]
theorem setAddress_size (s : Section) (a : Int) : ({ s with address := a }).size = s.size := rfl

@[simp]
theorem setAddress_vma (s : Section) (a : Int) : ({ s with address := a }).vma = s.vma := rfl

@[simp]
theorem setAddress_lma (s : Section) (a : Int) : ({ s with address := a }).lma = s.lma := rfl

@[simp]
theorem setAddress_fileOffset (s : Section) (a : Int) :
    ({ s with address := a }).fileOffset = s.fileOffset := rfl

@[simp]
theorem setAddress_align (s : Section) (a : Int) : ({ s with address := a }).align = s.align := rfl

@[simp]
theorem setAddress_flags (s : Section) (a : Int) : ({ s with address := a }).flags = s.flags := rfl

@[simp]
theorem setAddress_address (s : Section) (a : Int) : ({ s with address := a }).address = a := rfl

@[simp]
theorem setAddress_setAddress (s : Section) (a b : Int) :
    ({ ({ s with address := a } : Section) with address := b }) = { s with address := b } := rfl

@[simp]
theorem setAddress_isAlloc (s : Section) (a : Int) :
    isAllocSection { s with address := a } = isAllocSection s := rfl

@[simp]
theorem setBase_section (sym : SymbolInformation) (b : Int) :
    ({ sym with base := b }).section_ = sym.section_ := rfl

@[simp]
theorem setBase_base (sym : SymbolInformation) (b : Int) :
    ({ sym with base := b }).base = b := rfl

@[simp]
theorem setBase_setBase (sym : SymbolInformation) (a b : Int) :
    ({ ({ sym with base := a } : SymbolInformation) with base := b }) = { sym with base := b } := rfl

theorem applyRelocations_nil (rs : List Section) : applyRelocations rs [] = [] := by
  induction rs with
  | nil => rfl
  | cons r rs ih =>
    simp only [applyRelocations, List.foldl_cons]
    rw [show updateFirstSection r.name r.address [] = [] from rfl]
    exact ih

theorem applyRelocations_cons (rs : List Section) (s : Section) (t : List Section) :
    applyRelocations rs (s :: t) =
      applyRelocTo rs s :: applyRelocations (rs.filter (fun r => !(r.name == s.name))) t := by
  induction rs generalizing s t with
  | nil => rfl
  | cons r rs ih =>
    have hfold : applyRelocations (r :: rs) (s :: t) =
        applyRelocations rs (updateFirstSection r.name r.address (s :: t)) := rfl
    cases h : (s.name == r.name) with
    | true =>
      have h1 : (r.name == s.name) = true := beq_iff_eq.mpr (beq_iff_eq.mp h).symm
      have hupd : updateFirstSection r.name r.address (s :: t) =
          { s with address := r.address } :: t := by
        simp [updateFirstSection, h]
      have hfil : (r :: rs).filter (fun q => !(q.name == s.name)) =
          rs.filter (fun q => !(q.name == s.name)) := by
        simp [List.filter_cons, h1]
      have hlast : lastRelocAddr s.name (r :: rs) =
          match lastRelocAddr s.name rs with
          | some a => some a
          | none => some r.address := by
        simp only [lastRelocAddr, h1, if_pos]
      rw [hfold, hupd, ih, hfil]
      simp only [setAddress_name]
      congr 1
      unfold applyRelocTo
      rw [hlast]
      cases hl : lastRelocAddr s.name rs with
      | none => simp
      | some a => simp
    | false =>
      have h1 : (r.name == s.name) = false := by
        rw [beq_eq_false_iff_ne] at h ⊢
        exact fun he => h he.symm
      have hupd : updateFirstSection r.name r.address (s :: t) =
          s :: updateFirstSection r.name r.address t := by
        simp [updateFirstSection, h]
      have hfil : (r :: rs).filter (fun q => !(q.name == s.name)) =
          r :: rs.filter (fun q => !(q.name == s.name)) := by
        simp [List.filter_cons, h1]
      have hlast : lastRelocAddr s.name (r :: rs) = lastRelocAddr s.name rs := by
        simp only [lastRelocAddr, h1]
        cases hl : lastRelocAddr s.name rs <;> simp
      rw [hfold, hupd, ih, hfil]
      congr 1
      unfold applyRelocTo
      rw [hlast]

theorem applyRelocations_eq_relocFun (l : List Section) (rs : List Section) :
    applyRelocations rs l = relocFun rs l := by
  induction l generalizing rs with
  | nil => exact applyRelocations_nil rs
  | cons s t ih =>
    rw [applyRelocations_cons, relocFun, ih]

theorem applyRelocTo_name (rs : List Section) (s : Section) :
    (applyRelocTo rs s).name = s.name := by
  unfold applyRelocTo
  cases lastRelocAddr s.name rs <;> simp

theorem applyRelocTo_idem (rs : List Section) (s : Section) :
    applyRelocTo rs (applyRelocTo rs s) = applyRelocTo rs s := by
  unfold applyRelocTo
  cases hl : lastRelocAddr s.name rs with
  | none => simp [hl]
  | some a => simp [hl]

theorem relocFun_idem (l : List Section) (rs : List Section) :
    relocFun rs (relocFun rs l) = relocFun rs l := by
  induction l generalizing rs with
  | nil => rfl
  | cons s t ih =>
    simp only [relocFun, applyRelocTo_name, applyRelocTo_idem, ih]

theorem applyRelocations_idem (rs : List Section) (l : List Section) :
    applyRelocations rs (applyRelocations rs l) = applyRelocations rs l := by
  simp only [applyRelocations_eq_relocFun, relocFun_idem]

theorem updateSymbolBases_idem (secs : List Section) (syms : List SymbolInformation) :
    updateSymbolBases secs (updateSymbolBases secs syms) = updateSymbolBases secs syms := by
  unfold updateSymbolBases
  rw [List.map_map]
  apply List.map_congr_left
  intro sym _
  simp only [Function.comp]
  cases hc : secs.find? (fun s => s.name == sym.section_) with
  | none => simp [hc]
  | some sec => simp [hc]

theorem offsetSections_idem (l : List Section) (off : Int) :
    ((l.map fun s => if isAllocSection s then { s with address := s.vma + off } else s).map
      fun s => if isAllocSection s then { s with address := s.vma + off } else s) =
    l.map fun s => if isAllocSection s then { s with address := s.vma + off } else s := by
  rw [List.map_map]
  apply List.map_congr_left
  intro s _
  simp only [Function.comp]
  cases h : isAllocSection s with
  | false => simp [h]
  | true => simp [h]

/-- Claim C3: both relocation entry points are idempotent — applying
the same directive twice leaves every Section's address and every
Symbol's base identical to applying it once. -/
theorem relocation_idempotent (st : SymbolTable) (rs : List Section) (off : Int) :
    (st.relocate rs).relocate rs = st.relocate rs ∧
    (st.relocateWithOffset off).relocateWithOffset off = st.relocateWithOffset off := by
  constructor
  · simp [SymbolTable.relocate, applyRelocations_idem, updateSymbolBases_idem]
  · have hs := offsetSections_idem st.sections off
    show SymbolTable.mk
        ((st.sections.map fun s => if isAllocSection s then { s with address := s.vma + off } else s).map
          fun s => if isAllocSection s then { s with address := s.vma + off } else s)
        (updateSymbolBases
          ((st.sections.map fun s => if isAllocSection s then { s with address := s.vma + off } else s).map
            fun s => if isAllocSection s then { s with address := s.vma + off } else s)
          (updateSymbolBases
            (st.sections.map fun s => if isAllocSection s then { s with address := s.vma + off } else s)
            st.symbols)) =
      SymbolTable.mk
        (st.sections.map fun s => if isAllocSection s then { s with address := s.vma + off } else s)
        (updateSymbolBases
          (st.sections.map fun s => if isAllocSection s then { s with address := s.vma + off } else s)
          st.symbols)
    rw [hs, updateSymbolBases_idem]

theorem allocCount_cons_true {s : Section} (h : isAllocSection s = true)
    (l : List Section) : allocCount (s :: l) = allocCount l + 1 := by
  simp [allocCount, List.filter_cons, h]

theorem allocCount_cons_false {s : Section} (h : isAllocSection s = false)
    (l : List Section) : allocCount (s :: l) = allocCount l := by
  simp [allocCount, List.filter_cons, h]

theorem relocSnapshotGo_count (bases : List Int) (l : List Section) (c : Nat) :
    (relocSnapshotGo bases l c).2 = c + allocCount l := by
  induction l generalizing c with
  | nil => simp [relocSnapshotGo, allocCount]
  | cons s rest ih =>
    cases h : isAllocSection s with
    | true =>
      simp only [relocSnapshotGo, h, if_pos, allocCount_cons_true h, ih]
      omega
    | false =>
      simp only [relocSnapshotGo, h, Bool.false_eq_true, if_false, allocCount_cons_false h, ih]

theorem relocSnapshotGo_spec (l : List Section) (pre post : List Int)
    (res : List Section) (h : snapshotSpec l post = some res) :
    (relocSnapshotGo (pre ++ post) l pre.length).1 = res := by
  induction l generalizing pre post res with
  | nil =>
    cases post with
    | nil =>
      simp only [snapshotSpec, Option.some.injEq] at h
      subst h
      rfl
    | cons b bs => exact absurd h (by simp [snapshotSpec])
  | cons s rest ih =>
    cases ha : isAllocSection s with
    | true =>
      cases post with
      | nil =>
        simp only [snapshotSpec, ha, if_pos] at h
        exact absurd h (by simp)
      | cons b bs =>
        simp only [snapshotSpec, ha, if_pos] at h
        cases hs : snapshotSpec rest bs with
        | none => rw [hs] at h; exact absurd h (by simp)
        | some res' =>
          rw [hs] at h
          simp only [Option.map_some', Option.some.injEq] at h
          subst h
          simp only [relocSnapshotGo, ha, if_pos]
          have hb : (pre ++ b :: bs).getD pre.length 0 = b := by
            rw [List.getD_eq_getElem?_getD, List.getElem?_append_right (Nat.le_refl _)]
            simp
          have htail := ih (pre ++ [b]) bs res' hs
          rw [List.length_append, List.length_cons] at htail
          simp only [List.length_nil] at htail
          rw [← List.append_cons] at htail
          rw [hb]
          congr 1
    | false =>
      rw [show snapshotSpec (s :: rest) post =
          (snapshotSpec rest post).map (fun t => { s with address := s.vma } :: t) from by
        simp [snapshotSpec, ha]] at h
      cases hs : snapshotSpec rest post with
      | none => rw [hs] at h; exact absurd h (by simp)
      | some res' =>
        rw [hs] at h
        simp only [Option.map_some', Option.some.injEq] at h
        subst h
        rw [show relocSnapshotGo (pre ++ post) (s :: rest) pre.length =
            ({ s with address := s.vma } ::
              (relocSnapshotGo (pre ++ post) rest pre.length).1,
             (relocSnapshotGo (pre ++ post) rest pre.length).2) from by
          simp [relocSnapshotGo, ha]]
        exact congrArg (fun t => { s with address := s.vma } :: t) (ih pre post res' hs)

theorem snapshotSpec_exists (l : List Section) (bases : List Int)
    (h : bases.length = allocCount l) :
    ∃ res, snapshotSpec l bases = some res := by
  induction l generalizing bases with
  | nil =>
    have : bases = [] := List.length_eq_zero.mp (by simpa [allocCount] using h)
    subst this
    exact ⟨[], rfl⟩
  | cons s rest ih =>
    cases ha : isAllocSection s with
    | true =>
      rw [allocCount_cons_true ha] at h
      cases bases with
      | nil => simp at h
      | cons b bs =>
        obtain ⟨res', hs⟩ := ih bs (by simpa using h)
        exact ⟨{ s with address := b } :: res', by simp [snapshotSpec, ha, hs]⟩
    | false =>
      rw [allocCount_cons_false ha] at h
      obtain ⟨res', hs⟩ := ih bases h
      exact ⟨{ s with address := s.vma } :: res', by simp [snapshotSpec, ha, hs]⟩

theorem relocSnapshotGo_length (bases : List Int) (l : List Section) (c : Nat) :
    (relocSnapshotGo bases l c).1.length = l.length := by
  induction l generalizing c with
  | nil => rfl
  | cons s rest ih =>
    cases ha : isAllocSection s with
    | true => simp only [relocSnapshotGo, ha, if_pos, List.length_cons, ih]
    | false =>
      rw [show relocSnapshotGo bases (s :: rest) c =
          ({ s with address := s.vma } :: (relocSnapshotGo bases rest c).1,
           (relocSnapshotGo bases rest c).2) from by simp [relocSnapshotGo, ha]]
      simp only [List.length_cons, ih]

theorem relocSnapshotGo_getElem? (bases : List Int) (l : List Section) (c i : Nat)
    (sec : Section) (h : l[i]? = some sec) :
    ∃ a, ((relocSnapshotGo bases l c).1)[i]? = some { sec with address := a } := by
  induction l generalizing c i with
  | nil => simp at h
  | cons s rest ih =>
    cases ha : isAllocSection s with
    | true =>
      rw [show relocSnapshotGo bases (s :: rest) c =
          ({ s with address := bases.getD c 0 } :: (relocSnapshotGo bases rest (c + 1)).1,
           (relocSnapshotGo bases rest (c + 1)).2) from by simp [relocSnapshotGo, ha]]
      cases i with
      | zero =>
        rw [List.getElem?_cons_zero] at h
        cases h
        exact ⟨bases.getD c 0, by rw [List.getElem?_cons_zero]⟩
      | succ i =>
        rw [List.getElem?_cons_succ] at h
        obtain ⟨a, ha2⟩ := ih (c + 1) i h
        exact ⟨a, by rw [List.getElem?_cons_succ]; exact ha2⟩
    | false =>
      rw [show relocSnapshotGo bases (s :: rest) c =
          ({ s with address := s.vma } :: (relocSnapshotGo bases rest c).1,
           (relocSnapshotGo bases rest c).2) from by simp [relocSnapshotGo, ha]]
      cases i with
      | zero =>
        rw [List.getElem?_cons_zero] at h
        cases h
        exact ⟨sec.vma, by rw [List.getElem?_cons_zero]⟩
      | succ i =>
        rw [List.getElem?_cons_succ] at h
        obtain ⟨a, ha2⟩ := ih c i h
        exact ⟨a, by rw [List.getElem?_cons_succ]; exact ha2⟩

/-- Claim C4: `getRelocatedSections` fails with the count-mismatch error
exactly when the number of supplied addresses differs from the number of
ALLOC, non-zero-size sections; otherwise it returns what the spec's
snapshot description (`snapshotSpec`) prescribes: one record per
section, qualifying sections taking the supplied addresses in table
order, all others their static `vma`. -/
theorem getRelocatedSections_count_and_overrides (st : SymbolTable) (bases : List Int) :
    match st.getRelocatedSections bases with
    | Except.error _ => bases.length ≠ allocCount st.sections
    | Except.ok secs => bases.length = allocCount st.sections ∧
        snapshotSpec st.sections bases = some secs := by
  have hcount := relocSnapshotGo_count bases st.sections 0
  by_cases h : (relocSnapshotGo bases st.sections 0).2 = bases.length
  · have hlen : bases.length = allocCount st.sections := by omega
    obtain ⟨res, hres⟩ := snapshotSpec_exists st.sections bases hlen
    have hgo := relocSnapshotGo_spec st.sections [] bases res hres
    simp only [List.nil_append, List.length_nil] at hgo
    rw [show st.getRelocatedSections bases =
        Except.ok (relocSnapshotGo bases st.sections 0).1 from by
      simp only [SymbolTable.getRelocatedSections]
      rw [if_neg (by omega)]]
    show bases.length = allocCount st.sections ∧
        snapshotSpec st.sections bases = some (relocSnapshotGo bases st.sections 0).1
    rw [hgo]
    exact ⟨hlen, hres⟩
  · rw [show st.getRelocatedSections bases = Except.error
        "SymbolTable.getLocatedSections: number of sections mismatch" from by
      simp only [SymbolTable.getRelocatedSections]
      rw [if_pos h]]
    show bases.length ≠ allocCount st.sections
    omega

theorem getRelocatedSections_count_and_overrides_witness :
    match (SymbolTable.mk [textSection] []).getRelocatedSections [0x9000] with
    | Except.error _ => ([(0x9000:Int)]).length ≠ allocCount [textSection]
    | Except.ok secs => ([(0x9000:Int)]).length = allocCount [textSection] ∧
        snapshotSpec [textSection] [0x9000] = some secs :=
  getRelocatedSections_count_and_overrides ⟨[textSection], []⟩ [0x9000]

/-- Claim C10: `getRelocatedSections` is a pure read — run as a state
transformer it leaves the table exactly as it was (the body builds
fresh records by spread and writes nothing), and on success every
returned record is a copy of the corresponding stored section with only
its `address` field replaced. -/
theorem getRelocatedSections_pure_read (st : SymbolTable) (bases : List Int) :
    (st.getRelocatedSectionsRun bases).2 = st ∧
    (∀ secs, (st.getRelocatedSectionsRun bases).1 = Except.ok secs →
      secs.length = st.sections.length ∧
      ∀ (i : Nat) (sec : Section), st.sections[i]? = some sec →
        ∃ a, secs[i]? = some { sec with address := a }) := by
  refine ⟨rfl, ?_⟩
  intro secs hok
  have hok2 : st.getRelocatedSections bases = Except.ok secs := hok
  simp only [SymbolTable.getRelocatedSections] at hok2
  by_cases h : (relocSnapshotGo bases st.sections 0).2 ≠ bases.length
  · rw [if_pos h] at hok2
    exact absurd hok2 (by simp)
  · rw [if_neg h] at hok2
    have hsecs : secs = (relocSnapshotGo bases st.sections 0).1 := by
      cases hok2
      rfl
    subst hsecs
    refine ⟨relocSnapshotGo_length bases st.sections 0, ?_⟩
    intro i sec hsec
    exact relocSnapshotGo_getElem? bases st.sections 0 i sec hsec

theorem getRelocatedSections_pure_read_witness :
    ((SymbolTable.mk [textSection] []).getRelocatedSectionsRun [0x9000]).2 =
      SymbolTable.mk [textSection] [] ∧
    ∃ a, [{ textSection with address := (0x9000:Int) }][0]? =
      some { textSection with address := a } :=
  ⟨(getRelocatedSections_pure_read ⟨[textSection], []⟩ [0x9000]).1,
    ((getRelocatedSections_pure_read ⟨[textSection], []⟩ [0x9000]).2
      [{ textSection with address := 0x9000 }] (by decide) |>.2 0 textSection (by decide))⟩

theorem getSymbolsStep_error_of_bad (sections : List Section) (cf : Option String)
    (m : SymbolMatch) (h1 : jsTrim m.m9 ≠ "*ABS*")
    (h2 : sections.find? (fun s => s.name == jsTrim m.m9) = none) :
    getSymbolsStep sections cf m = Except.error (unknownSectionMessage m) := by
  simp only [getSymbolsStep]
  rw [if_pos ⟨h1, h2⟩]
  rfl

theorem getSymbolsStep_bad_of_error (sections : List Section) (cf : Option String)
    (m : SymbolMatch) (e : String)
    (h : getSymbolsStep sections cf m = Except.error e) :
    jsTrim m.m9 ≠ "*ABS*" ∧
      sections.find? (fun s => s.name == jsTrim m.m9) = none := by
  by_cases hc : jsTrim m.m9 ≠ "*ABS*" ∧
      sections.find? (fun s => s.name == jsTrim m.m9) = none
  · exact hc
  · exfalso
    simp only [getSymbolsStep] at h
    rw [if_neg hc] at h
    cases h

theorem getSymbolsStep_section_ok (sections : List Section) (cf : Option String)
    (m : SymbolMatch) (cf' : Option String) (sym : SymbolInformation)
    (h : getSymbolsStep sections cf m = Except.ok (cf', sym)) :
    sym.section_ = "*ABS*" ∨ ∃ sec ∈ sections, sec.name = sym.section_ := by
  simp only [getSymbolsStep] at h
  split at h
  · exact absurd h (by simp)
  · next hc =>
    rw [Except.ok.injEq, Prod.mk.injEq] at h
    obtain ⟨_, hsym⟩ := h
    subst hsym
    push_neg at hc
    by_cases habs : jsTrim m.m9 = "*ABS*"
    · exact Or.inl habs
    · rcases Option.ne_none_iff_exists'.mp (hc habs) with ⟨sec, hsec⟩
      refine Or.inr ⟨sec, List.mem_of_find?_eq_some hsec, ?_⟩
      have := List.find?_some hsec
      exact beq_iff_eq.mp this

theorem getSymbolsLoop_unknown_section (sections : List Section)
    (ms : List SymbolMatch) (cf : Option String)
    (hex : ∃ m ∈ ms, jsTrim m.m9 ≠ "*ABS*" ∧
      sections.find? (fun s => s.name == jsTrim m.m9) = none) :
    ∃ m ∈ ms, jsTrim m.m9 ≠ "*ABS*" ∧
      sections.find? (fun s => s.name == jsTrim m.m9) = none ∧
      getSymbolsLoop sections cf ms = Except.error (unknownSectionMessage m) := by
  induction ms generalizing cf with
  | nil => simp at hex
  | cons m rest ih =>
    by_cases hbadm : jsTrim m.m9 ≠ "*ABS*" ∧
        sections.find? (fun s => s.name == jsTrim m.m9) = none
    · refine ⟨m, List.mem_cons_self m rest, hbadm.1, hbadm.2, ?_⟩
      have hstep := getSymbolsStep_error_of_bad sections cf m hbadm.1 hbadm.2
      simp [getSymbolsLoop, hstep]
    · rcases hex with ⟨m0, hm0, hbad0⟩
      rcases List.mem_cons.mp hm0 with hhead | htail
      · subst hhead
        exact absurd hbad0 hbadm
      · cases hstep : getSymbolsStep sections cf m with
        | error e =>
          exact absurd (getSymbolsStep_bad_of_error sections cf m e hstep) hbadm
        | ok p =>
          obtain ⟨cf2, sym0⟩ := p
          obtain ⟨m1, hm1, hb1, hb2, herr⟩ := ih cf2 ⟨m0, htail, hbad0⟩
          exact ⟨m1, List.mem_cons_of_mem m hm1, hb1, hb2,
            by simp [getSymbolsLoop, hstep, herr]⟩

theorem getSymbolsLoop_ok_sections (sections : List Section) (ms : List SymbolMatch)
    (cf : Option String) (syms : List SymbolInformation)
    (h : getSymbolsLoop sections cf ms = Except.ok syms) :
    ∀ sym ∈ syms, sym.section_ = "*ABS*" ∨ ∃ sec ∈ sections, sec.name = sym.section_ := by
  induction ms generalizing cf syms with
  | nil =>
    simp only [getSymbolsLoop, Except.ok.injEq] at h
    subst h
    intro sym hmem
    simp at hmem
  | cons m rest ih =>
    cases hstep : getSymbolsStep sections cf m with
    | error e =>
      rw [show getSymbolsLoop sections cf (m :: rest) = Except.error e from by
        simp [getSymbolsLoop, hstep]] at h
      cases h
    | ok p =>
      obtain ⟨cf2, sym0⟩ := p
      cases hloop : getSymbolsLoop sections cf2 rest with
      | error e =>
        rw [show getSymbolsLoop sections cf (m :: rest) = Except.error e from by
          simp [getSymbolsLoop, hstep, hloop]] at h
        cases h
      | ok syms' =>
        rw [show getSymbolsLoop sections cf (m :: rest) = Except.ok (sym0 :: syms') from by
          simp [getSymbolsLoop, hstep, hloop]] at h
        cases h
        intro sym hmem
        rcases List.mem_cons.mp hmem with hhead | htail
        · subst hhead
          exact getSymbolsStep_section_ok sections cf m cf2 sym hstep
        · exact ih cf2 syms' hloop sym htail

/-- Claim C5: once sections have been parsed (the table is non-empty),
a decoded line naming a section that is neither `*ABS*` nor present in
the table makes `getSymbols` fail with the unknown-section error naming
that offending section and symbol (`unknownSectionMessage`), and on
success every decoded symbol's section is `*ABS*` or the name of a
stored Section. -/
theorem unknown_section_fatal (sections : List Section) (ms : List SymbolMatch) :
    (sections.length ≠ 0 →
      (∃ m ∈ ms, jsTrim m.m9 ≠ "*ABS*" ∧
        sections.find? (fun s => s.name == jsTrim m.m9) = none) →
      ∃ m ∈ ms, jsTrim m.m9 ≠ "*ABS*" ∧
        sections.find? (fun s => s.name == jsTrim m.m9) = none ∧
        getSymbols sections ms = Except.error (unknownSectionMessage m)) ∧
    (∀ syms, getSymbols sections ms = Except.ok syms →
      ∀ sym ∈ syms, sym.section_ = "*ABS*" ∨ ∃ sec ∈ sections, sec.name = sym.section_) := by
  constructor
  · intro hlen hex
    unfold getSymbols
    rw [if_neg hlen]
    exact getSymbolsLoop_unknown_section sections ms none hex
  · intro syms h
    unfold getSymbols at h
    by_cases hlen : sections.length = 0
    · rw [if_pos hlen] at h; cases h
    · rw [if_neg hlen] at h
      exact getSymbolsLoop_ok_sections sections ms none syms h

theorem unknown_section_fatal_witness :
    ∃ m ∈ [badMatch], jsTrim m.m9 ≠ "*ABS*" ∧
      [textSection].find? (fun s => s.name == jsTrim m.m9) = none ∧
      getSymbols [textSection] [badMatch] = Except.error (unknownSectionMessage m) :=
  (unknown_section_fatal [textSection] [badMatch]).1 (by decide)
    ⟨badMatch, by decide, by decide, by decide⟩

/-- Claim C7: `getFunctionByName` returns the first Local-scope
Function of the given name and file, else the first non-Local-scope
Function of that name, else null; in the two-`helper` scenario the
query for `a.c` returns the Local one and the query for `b.c` falls
back to the Global one. -/
theorem getFunctionByName_local_then_fallback :
    (∀ (st : SymbolTable) (name : String) (file : Option String),
      st.getFunctionByName name file =
        match st.symbols.find? (fun s =>
            decide (s.type = SymbolType.Function) && decide (s.scope = SymbolScope.Local) &&
            s.name == name && tsFileEq s.file file) with
        | some s => some s
        | none => st.symbols.find? (fun s =>
            decide (s.type = SymbolType.Function) &&
            decide (s.scope ≠ SymbolScope.Local) && s.name == name)) ∧
    helperTable.getFunctionByName "helper" (some "a.c") = some helperLocal ∧
    helperTable.getFunctionByName "helper" (some "b.c") = some helperGlobal := by
  refine ⟨?_, by decide, by decide⟩
  intro st name file
  simp only [SymbolTable.getFunctionByName]
  rw [head?_filter_eq_find?, head?_filter_eq_find?]

theorem applyRelocTo_preserves (rs : List Section) (s : Section) :
    (applyRelocTo rs s).name = s.name ∧ (applyRelocTo rs s).size = s.size ∧
    (applyRelocTo rs s).vma = s.vma ∧ (applyRelocTo rs s).lma = s.lma ∧
    (applyRelocTo rs s).fileOffset = s.fileOffset ∧
    (applyRelocTo rs s).align = s.align ∧ (applyRelocTo rs s).flags = s.flags := by
  unfold applyRelocTo
  cases lastRelocAddr s.name rs <;> simp

theorem lastRelocAddr_eq_none (rs : List Section) (nm : String)
    (h : ∀ r ∈ rs, r.name ≠ nm) : lastRelocAddr nm rs = none := by
  induction rs with
  | nil => rfl
  | cons r rest ih =>
    have hrest := ih (fun q hq => h q (List.mem_cons_of_mem r hq))
    have hr : (r.name == nm) = false :=
      beq_eq_false_iff_ne.mpr (h r (List.mem_cons_self r rest))
    simp [lastRelocAddr, hrest, hr]

theorem relocFun_getElem?_ex (rs l : List Section) (i : Nat) (sec : Section)
    (h : l[i]? = some sec) :
    ∃ rsx, rsx.Sublist rs ∧ (relocFun rs l)[i]? = some (applyRelocTo rsx sec) := by
  induction l generalizing rs i with
  | nil => simp at h
  | cons s t ih =>
    cases i with
    | zero =>
      rw [List.getElem?_cons_zero] at h
      cases h
      exact ⟨rs, List.Sublist.refl rs, by rw [relocFun, List.getElem?_cons_zero]⟩
    | succ i =>
      rw [List.getElem?_cons_succ] at h
      obtain ⟨rsx, hsub, heq⟩ := ih (rs.filter (fun r => !(r.name == s.name))) i h
      refine ⟨rsx, hsub.trans (List.filter_sublist rs), ?_⟩
      rw [relocFun, List.getElem?_cons_succ]
      exact heq

theorem relocFun_map_name (rs l : List Section) :
    (relocFun rs l).map Section.name = l.map Section.name := by
  induction l generalizing rs with
  | nil => rfl
  | cons s t ih =>
    simp only [relocFun, List.map_cons, applyRelocTo_name, ih]

/-- Claim C8: `relocate` updates only the Sections named in the input
(and only their `address` field); afterwards every symbol whose section
is found in the table has `base` set to that Section's current address,
and symbols whose section is not found — in particular `*ABS*` symbols,
when no stored section carries the sentinel name — are left entirely
unchanged. -/
theorem relocate_frame_effect (st : SymbolTable) (rs : List Section) :
    (∀ (i : Nat) (sec : Section), st.sections[i]? = some sec →
      ∃ snew, ((st.relocate rs).sections)[i]? = some snew ∧
        snew.name = sec.name ∧ snew.size = sec.size ∧ snew.vma = sec.vma ∧
        snew.lma = sec.lma ∧ snew.fileOffset = sec.fileOffset ∧
        snew.align = sec.align ∧ snew.flags = sec.flags ∧
        (sec.name ∉ rs.map Section.name → snew = sec)) ∧
    (∀ (i : Nat) (sym : SymbolInformation), st.symbols[i]? = some sym →
      (∀ sec, (st.relocate rs).sections.find? (fun s => s.name == sym.section_) = some sec →
        ((st.relocate rs).symbols)[i]? = some { sym with base := sec.address }) ∧
      ((st.relocate rs).sections.find? (fun s => s.name == sym.section_) = none →
        ((st.relocate rs).symbols)[i]? = some sym)) ∧
    ((∀ sec ∈ st.sections, sec.name ≠ "*ABS*") →
      ∀ (i : Nat) (sym : SymbolInformation), st.symbols[i]? = some sym →
        sym.section_ = "*ABS*" →
        ((st.relocate rs).symbols)[i]? = some sym) := by
  have hsec : (st.relocate rs).sections = relocFun rs st.sections :=
    applyRelocations_eq_relocFun st.sections rs
  have hsym : ∀ (i : Nat), ((st.relocate rs).symbols)[i]? =
      (st.symbols[i]?).map (fun sym =>
        match (st.relocate rs).sections.find? (fun s => s.name == sym.section_) with
        | some sec => { sym with base := sec.address }
        | none => sym) := by
    intro i
    exact updateSymbolBases_getElem? (st.relocate rs).sections st.symbols i
  refine ⟨?_, ?_, ?_⟩
  · intro i sec h
    rw [hsec]
    obtain ⟨rsx, hsub, heq⟩ := relocFun_getElem?_ex rs st.sections i sec h
    obtain ⟨h1, h2, h3, h4, h5, h6, h7⟩ := applyRelocTo_preserves rsx sec
    refine ⟨applyRelocTo rsx sec, heq, h1, h2, h3, h4, h5, h6, h7, ?_⟩
    intro hnotin
    have hnone : lastRelocAddr sec.name rsx = none := by
      apply lastRelocAddr_eq_none
      intro r hr hrname
      exact hnotin (List.mem_map.mpr ⟨r, hsub.subset hr, hrname⟩)
    unfold applyRelocTo
    rw [hnone]
  · intro i sym h
    constructor
    · intro sec hfind
      rw [hsym i, h]
      simp only [Option.map_some']
      rw [hfind]
    · intro hfind
      rw [hsym i, h]
      simp only [Option.map_some']
      rw [hfind]
  · intro habs i sym h hsecname
    have hfind : (st.relocate rs).sections.find?
        (fun s => s.name == sym.section_) = none := by
      rw [List.find?_eq_none]
      intro x hx
      have hxname : x.name ∈ st.sections.map Section.name := by
        rw [← relocFun_map_name rs st.sections, ← hsec]
        exact List.mem_map_of_mem Section.name hx
      rcases List.mem_map.mp hxname with ⟨orig, horig, hname⟩
      have : x.name ≠ "*ABS*" := hname ▸ habs orig horig
      rw [hsecname]
      simp only [beq_iff_eq]
      exact this
    rw [hsym i, h]
    simp only [Option.map_some']
    rw [hfind]

theorem relocate_frame_effect_witness :
    ∃ snew,
      ((SymbolTable.relocate ⟨[textSection], [fooSym]⟩
          [{ textSection with address := 5 }]).sections)[0]? = some snew ∧
      snew.name = textSection.name ∧ snew.size = textSection.size ∧
      snew.vma = textSection.vma ∧ snew.lma = textSection.lma ∧
      snew.fileOffset = textSection.fileOffset ∧ snew.align = textSection.align ∧
      snew.flags = textSection.flags ∧
      (textSection.name ∉ ([{ textSection with address := (5:Int) }]).map Section.name →
        snew = textSection) :=
  (relocate_frame_effect ⟨[textSection], [fooSym]⟩
    [{ textSection with address := 5 }]).1 0 textSection (by decide)
